import Mathlib

/-
Shallow embedding of the macro-processor expansion engine found in this
repository.  The repository contains two complete implementations of the
engine:

  * submission/proj1.c  (modelled in namespace S1): output is accumulated
    in a global buffer and printed only on success; a backslash-name not
    followed by a brace is emitted literally; \expandafter expands both of
    its arguments before re-expanding their concatenation; define_macro
    silently ignores the six builtin names.

  * submission2/proj1.c (modelled in namespace S2): output is streamed
    character by character through an output_char_fn sink; there is no
    literal fallback for a backslash-name without a brace argument;
    \expandafter expands only AFTER and re-expands BEFORE ++ S;
    define_macro stores any not-yet-bound name, builtins included.

Strings are List Char.  C recursion is totalised with a fuel parameter:
every recursive step of the expansion engine consumes one unit of fuel,
and ERes.fuelOut means the C program would still be running (or would
have overflowed its stack) at that bound; it is not an error the C code
ever reports.  The chars written through the current sink before an abort
are carried in the out field of every ERes constructor, so that partial
output to standard output can be stated precisely.  File input for
\include is abstracted by a parameter fs : Text -> Option Text giving the
(comment-stripped) contents of each file, matching read_included_file,
which the specification treats as an external collaborator.
-/

/-- Character strings of the C program, as lists of characters. -/
abbrev Text := List Char

/-- Embeds isalnum from ctype.h in the C locale: decimal digits and ASCII
letters, as used by both implementations for macro names. -/
def c_isalnum (c : Char) : Bool :=
  ('0' ≤ c && c ≤ '9') || ('a' ≤ c && c ≤ 'z') || ('A' ≤ c && c ≤ 'Z')

/-- Embeds isspace from ctype.h in the C locale, as used by skip_spaces in
submission/proj1.c and by readArg in submission2/proj1.c. -/
def c_isspace (c : Char) : Bool :=
  c = ' ' || c = '\t' || c = '\n' || c = '\x0b' || c = '\x0c' || c = '\r'

/-- The five escape characters recognised after a backslash
(submission/proj1.c lines 334-335, submission2/proj1.c lines 461-462). -/
def isEscChar (c : Char) : Bool :=
  c = '\\' || c = '{' || c = '}' || c = '#' || c = '%'

/-- Errors reported through raise_error / fprintf+exit by the two
implementations.  Each constructor corresponds to one diagnostic message. -/
inductive Err where
  /-- Macro 'n' already defined. -/
  | dup (n : Text)
  /-- Cannot undefine 'n' - not defined. -/
  | undefAbsent (n : Text)
  /-- Macro 'n' not defined. -/
  | notDefined (n : Text)
  /-- invalid macro name in a def or ifdef. -/
  | invalidName
  /-- unbalanced braces in argument. -/
  | unbalanced
  /-- a missing brace-delimited argument. -/
  | missingArg
  /-- Cannot open file 'p'. -/
  | fileErr (p : Text)
deriving DecidableEq

/-- The macro table: a list of name-value pairs, most recent first, exactly
as the singly-linked list with head insertion in both implementations. -/
abbrev MacroTable := List (Text × Text)

/-- Embeds lookup_macro (identical in both implementations): the value of
the first entry whose name matches, or none. -/
def tblLookup : MacroTable → Text → Option Text
  | [], _ => none
  | e :: rest, n => if e.1 = n then some e.2 else tblLookup rest n

/-- Embeds undef_macro (identical in both implementations): removes the
first entry whose name matches; none when the name is absent, in which
case the C code raises the cannot-undefine error. -/
def tblRemove : MacroTable → Text → Option MacroTable
  | [], _ => none
  | e :: rest, n => if e.1 = n then some rest else (tblRemove rest n).map (e :: ·)

/-- The builtin name def. -/
def strDef : Text := ['d', 'e', 'f']

/-- The builtin name undef. -/
def strUndef : Text := ['u', 'n', 'd', 'e', 'f']

/-- The builtin name if. -/
def strIf : Text := ['i', 'f']

/-- The builtin name ifdef. -/
def strIfdef : Text := ['i', 'f', 'd', 'e', 'f']

/-- The builtin name include. -/
def strInclude : Text := ['i', 'n', 'c', 'l', 'u', 'd', 'e']

/-- The builtin name expandafter. -/
def strExpandafter : Text := ['e', 'x', 'p', 'a', 'n', 'd', 'a', 'f', 't', 'e', 'r']

/-- Embeds is_builtin from submission/proj1.c lines 88-96: the six
reserved builtin names. -/
def is_builtin (n : Text) : Bool :=
  n = strDef || n = strUndef || n = strIf || n = strIfdef ||
    n = strInclude || n = strExpandafter

/-- Embeds the macro-name gathering loop (readMacroName in
submission2/proj1.c lines 409-438, and the inline loop at
submission/proj1.c lines 349-362): the maximal alphanumeric run and the
remaining input. -/
def readMacroName : Text → Text × Text
  | [] => ([], [])
  | c :: rest =>
    if c_isalnum c then
      let r := readMacroName rest
      (c :: r.1, r.2)
    else ([], c :: rest)

/-- Embeds the template-instantiation loop of the user-macro branch
(identical in submission/proj1.c lines 516-570 and submission2/proj1.c
lines 618-666): a backslash before one of the five escape characters
emits only that character, a trailing backslash is kept, a backslash
before anything else is copied together with that character, an unescaped
hash is replaced by the raw argument, and other characters are copied. -/
def substBody : Text → Text → Text
  | [], _ => []
  | c :: rest, arg =>
    if c = '\\' then
      match rest with
      | [] => ['\\']
      | next :: rest2 =>
        if isEscChar next then next :: substBody rest2 arg
        else '\\' :: next :: substBody rest2 arg
    else if c = '#' then arg ++ substBody rest arg
    else c :: substBody rest arg

/-- Result of reading one brace-delimited argument.  noBrace corresponds
to the C readArg finding no opening brace (submission2 returns NULL with
the cursor already past the skipped whitespace; submission raises the
expected-brace error at that point). -/
inductive ArgRes where
  | ok (arg rest : Text)
  | noBrace (rest : Text)
  | unbal
deriving DecidableEq

/-- Result of one expansion call.  out is the string of characters already
written through the sink that the call writes to; err means the process
printed that diagnostic and exited; fuelOut means the C recursion is still
running at this fuel bound. -/
inductive ERes where
  | ok (out : Text) (tbl : MacroTable)
  | err (out : Text) (e : Err)
  | fuelOut (out : Text)
deriving DecidableEq

/-- Prepends characters that were emitted to the current sink before the
rest of the call produced r. -/
def ERes.withOut (pre : Text) : ERes → ERes
  | .ok o t => .ok (pre ++ o) t
  | .err o e => .err (pre ++ o) e
  | .fuelOut o => .fuelOut (pre ++ o)

/-- The file system collaborator with no readable files. -/
def emptyFs : Text → Option Text := fun _ => none

namespace S2

/-- Embeds the scanning loop of readArg from submission2/proj1.c lines
351-394: depth starts at 1, a backslash escapes exactly the next
character (which is stored and never alters the depth), unescaped braces
move the depth, and the closing brace that returns the depth to 0 is
consumed without being stored.  none means the input ran out first. -/
def argScan : Text → Nat → Bool → Text → Option (Text × Text)
  | [], _, _, _ => none
  | c :: rest, depth, escaped, acc =>
    if escaped then argScan rest depth false (acc ++ [c])
    else if c = '\\' then argScan rest depth true (acc ++ [c])
    else if c = '{' then argScan rest (depth + 1) false (acc ++ [c])
    else if c = '}' then
      if depth = 1 then some (acc, rest)
      else argScan rest (depth - 1) false (acc ++ [c])
    else argScan rest depth false (acc ++ [c])

/-- Embeds readArg from submission2/proj1.c lines 332-404: skip
whitespace, require an opening brace (otherwise NULL, i.e. noBrace), then
scan; running out of input is the unbalanced-braces error. -/
def readArg (s : Text) : ArgRes :=
  let s' := s.dropWhile c_isspace
  if s'.head? = some '{' then
    match argScan s'.tail 1 false [] with
    | some (arg, r) => .ok arg r
    | none => .unbal
  else .noBrace s'

/-- Embeds define_macro from submission2/proj1.c lines 47-59: error (none)
when the name is already bound, otherwise insert at the head.  There is no
special case for builtin names in this implementation. -/
def tblDefine (t : MacroTable) (n v : Text) : Option MacroTable :=
  if t.any (fun m => m.1 = n) then none else some ((n, v) :: t)

/-- Embeds expand_text_impl from submission2/proj1.c lines 444-696
together with expand_text_into_string and combine_strings.  Each
recursive step costs one unit of fuel.  In the def branch, when the VALUE
argument has no opening brace the C passes NULL and defines the macro
with the empty value (line 488); when an earlier argument of a builtin
has no opening brace, the later readArg calls of that builtin are
guaranteed to find no brace at the same position, so the eventual
requires-N-arguments diagnostic is reached directly. -/
def expand (fs : Text → Option Text) : Nat → MacroTable → Text → ERes
  | 0, tbl, [] => .ok [] tbl
  | 0, _, _ :: _ => .fuelOut []
  | _ + 1, tbl, [] => .ok [] tbl
  | f + 1, tbl, c :: rest =>
    if c = '\\' then
      match rest with
      | [] => .ok ['\\'] tbl
      | c2 :: rest2 =>
        if isEscChar c2 then (expand fs f tbl rest2).withOut [c2]
        else if c_isalnum c2 then
          let nm := readMacroName rest
          let name := nm.1
          let p := nm.2
          if name = strDef then
            match readArg p with
            | .unbal => .err [] .unbalanced
            | .noBrace _ => .err [] .invalidName
            | .ok n1 r1 =>
              match readArg r1 with
              | .unbal => .err [] .unbalanced
              | .noBrace r2 =>
                if n1 = [] then .err [] .invalidName
                else if n1.all c_isalnum then
                  match tblDefine tbl n1 [] with
                  | none => .err [] (.dup n1)
                  | some tbl2 => expand fs f tbl2 r2
                else .err [] .invalidName
              | .ok v r2 =>
                if n1 = [] then .err [] .invalidName
                else if n1.all c_isalnum then
                  match tblDefine tbl n1 v with
                  | none => .err [] (.dup n1)
                  | some tbl2 => expand fs f tbl2 r2
                else .err [] .invalidName
          else if name = strUndef then
            match readArg p with
            | .unbal => .err [] .unbalanced
            | .noBrace _ => .err [] .missingArg
            | .ok n1 r1 =>
              match tblRemove tbl n1 with
              | none => .err [] (.undefAbsent n1)
              | some tbl2 => expand fs f tbl2 r1
          else if name = strIf then
            match readArg p with
            | .unbal => .err [] .unbalanced
            | .noBrace _ => .err [] .missingArg
            | .ok cond r1 =>
              match readArg r1 with
              | .unbal => .err [] .unbalanced
              | .noBrace _ => .err [] .missingArg
              | .ok thn r2 =>
                match readArg r2 with
                | .unbal => .err [] .unbalanced
                | .noBrace _ => .err [] .missingArg
                | .ok els r3 =>
                  match expand fs f tbl (if cond = [] then els else thn) with
                  | .ok o1 t1 => (expand fs f t1 r3).withOut o1
                  | r => r
          else if name = strIfdef then
            match readArg p with
            | .unbal => .err [] .unbalanced
            | .noBrace _ => .err [] .missingArg
            | .ok n1 r1 =>
              match readArg r1 with
              | .unbal => .err [] .unbalanced
              | .noBrace _ => .err [] .missingArg
              | .ok thn r2 =>
                match readArg r2 with
                | .unbal => .err [] .unbalanced
                | .noBrace _ => .err [] .missingArg
                | .ok els r3 =>
                  if n1.all c_isalnum then
                    match expand fs f tbl (if (tblLookup tbl n1).isSome then thn else els) with
                    | .ok o1 t1 => (expand fs f t1 r3).withOut o1
                    | r => r
                  else .err [] .invalidName
          else if name = strInclude then
            match readArg p with
            | .unbal => .err [] .unbalanced
            | .noBrace _ => .err [] .missingArg
            | .ok path r1 =>
              match fs path with
              | none => .err [] (.fileErr path)
              | some txt =>
                match expand fs f tbl txt with
                | .ok o1 t1 => (expand fs f t1 r1).withOut o1
                | r => r
          else if name = strExpandafter then
            match readArg p with
            | .unbal => .err [] .unbalanced
            | .noBrace _ => .err [] .missingArg
            | .ok before r1 =>
              match readArg r1 with
              | .unbal => .err [] .unbalanced
              | .noBrace _ => .err [] .missingArg
              | .ok after r2 =>
                match expand fs f tbl after with
                | .fuelOut _ => .fuelOut []
                | .err _ e => .err [] e
                | .ok s t1 =>
                  match expand fs f t1 (before ++ s) with
                  | .ok o1 t2 => (expand fs f t2 r2).withOut o1
                  | r => r
          else
            match tblLookup tbl name with
            | none => .err [] (.notDefined name)
            | some val =>
              match readArg p with
              | .unbal => .err [] .unbalanced
              | .noBrace _ => .err [] .missingArg
              | .ok arg r1 =>
                match expand fs f tbl (substBody val arg) with
                | .ok o1 t1 => (expand fs f t1 r1).withOut o1
                | r => r
        else (expand fs f tbl rest2).withOut ['\\', c2]
    else (expand fs f tbl rest).withOut [c]

/-- Standard output of a run of submission2: parse_and_expand (lines
702-706) streams every character through out_char_stdout as it is
produced, so whatever was emitted before an abort stays on stdout. -/
def stdoutOf : ERes → Text
  | .ok o _ => o
  | .err o _ => o
  | .fuelOut o => o

/-- Diagnostics printed to the error stream by a completed run of
submission2: the single message printed just before exit, if any. -/
def stderrOf : ERes → List Err
  | .err _ e => [e]
  | _ => []

end S2

namespace S1

/-- Embeds the scanning loop of readArg from submission/proj1.c lines
210-255: a backslash increments backslashCount and is stored; any other
character is escaped exactly when that count is odd (and resets it);
unescaped braces move the depth; the closing brace that returns the depth
to 0 is consumed without being stored.  none means the input ran out. -/
def argScan : Text → Nat → Nat → Text → Option (Text × Text)
  | [], _, _, _ => none
  | c :: rest, depth, cnt, acc =>
    if c = '\\' then argScan rest depth (cnt + 1) (acc ++ [c])
    else if c = '{' ∧ cnt % 2 = 0 then argScan rest (depth + 1) 0 (acc ++ [c])
    else if c = '}' ∧ cnt % 2 = 0 then
      if depth = 1 then some (acc, rest)
      else argScan rest (depth - 1) 0 (acc ++ [c])
    else argScan rest depth 0 (acc ++ [c])

/-- Embeds readArg from submission/proj1.c lines 198-262: skip whitespace,
require an opening brace (otherwise raise_error with the expected-brace
message, represented by noBrace and mapped to Err.missingArg at every
call site), then scan; running out of input is the unbalanced error. -/
def readArg (s : Text) : ArgRes :=
  let s' := s.dropWhile c_isspace
  if s'.head? = some '{' then
    match argScan s'.tail 1 0 [] with
    | some (arg, r) => .ok arg r
    | none => .unbal
  else .noBrace s'

/-- Embeds define_macro from submission/proj1.c lines 116-132: a builtin
name is silently ignored (the table is returned unchanged), a name that is
already bound is the duplicate error (none), otherwise insert at head. -/
def tblDefine (t : MacroTable) (n v : Text) : Option MacroTable :=
  if is_builtin n then some t
  else if t.any (fun m => m.1 = n) then none
  else some ((n, v) :: t)

/-- Embeds expand_text_impl from submission/proj1.c lines 329-594 together
with expand_string_fully (lines 271-323).  After a macro name the code
calls skip_spaces and then, if the next character is not an opening brace,
emits the backslash and the name literally and resumes after the skipped
whitespace (lines 364-374).  In the expandafter branch (lines 463-492)
both BEFORE and AFTER are fully expanded, in that order AFTER first, and
the concatenation of the two results is then expanded.  noBrace results
of readArg are mapped to Err.missingArg because raise_error fires inside
readArg itself. -/
def expand (fs : Text → Option Text) : Nat → MacroTable → Text → ERes
  | 0, tbl, [] => .ok [] tbl
  | 0, _, _ :: _ => .fuelOut []
  | _ + 1, tbl, [] => .ok [] tbl
  | f + 1, tbl, c :: rest =>
    if c = '\\' then
      match rest with
      | [] => .ok ['\\'] tbl
      | c2 :: rest2 =>
        if isEscChar c2 then (expand fs f tbl rest2).withOut [c2]
        else if c_isalnum c2 then
          let nm := readMacroName rest
          let name := nm.1
          let p' := nm.2.dropWhile c_isspace
          if p'.head? = some '{' then
            if name = strDef then
              match readArg p' with
              | .unbal => .err [] .unbalanced
              | .noBrace _ => .err [] .missingArg
              | .ok n1 r1 =>
                match readArg r1 with
                | .unbal => .err [] .unbalanced
                | .noBrace _ => .err [] .missingArg
                | .ok v r2 =>
                  if n1 = [] then .err [] .invalidName
                  else if n1.all c_isalnum then
                    match tblDefine tbl n1 v with
                    | none => .err [] (.dup n1)
                    | some tbl2 => expand fs f tbl2 r2
                  else .err [] .invalidName
            else if name = strUndef then
              match readArg p' with
              | .unbal => .err [] .unbalanced
              | .noBrace _ => .err [] .missingArg
              | .ok n1 r1 =>
                match tblRemove tbl n1 with
                | none => .err [] (.undefAbsent n1)
                | some tbl2 => expand fs f tbl2 r1
            else if name = strIf then
              match readArg p' with
              | .unbal => .err [] .unbalanced
              | .noBrace _ => .err [] .missingArg
              | .ok cond r1 =>
                match readArg r1 with
                | .unbal => .err [] .unbalanced
                | .noBrace _ => .err [] .missingArg
                | .ok thn r2 =>
                  match readArg r2 with
                  | .unbal => .err [] .unbalanced
                  | .noBrace _ => .err [] .missingArg
                  | .ok els r3 =>
                    match expand fs f tbl (if cond = [] then els else thn) with
                    | .ok o1 t1 => (expand fs f t1 r3).withOut o1
                    | r => r
            else if name = strIfdef then
              match readArg p' with
              | .unbal => .err [] .unbalanced
              | .noBrace _ => .err [] .missingArg
              | .ok n1 r1 =>
                match readArg r1 with
                | .unbal => .err [] .unbalanced
                | .noBrace _ => .err [] .missingArg
                | .ok thn r2 =>
                  match readArg r2 with
                  | .unbal => .err [] .unbalanced
                  | .noBrace _ => .err [] .missingArg
                  | .ok els r3 =>
                    if n1.all c_isalnum then
                      match expand fs f tbl (if (tblLookup tbl n1).isSome then thn else els) with
                      | .ok o1 t1 => (expand fs f t1 r3).withOut o1
                      | r => r
                    else .err [] .invalidName
            else if name = strInclude then
              match readArg p' with
              | .unbal => .err [] .unbalanced
              | .noBrace _ => .err [] .missingArg
              | .ok path r1 =>
                match fs path with
                | none => .err [] (.fileErr path)
                | some txt =>
                  match expand fs f tbl txt with
                  | .ok o1 t1 => (expand fs f t1 r1).withOut o1
                  | r => r
            else if name = strExpandafter then
              match readArg p' with
              | .unbal => .err [] .unbalanced
              | .noBrace _ => .err [] .missingArg
              | .ok before r1 =>
                match readArg r1 with
                | .unbal => .err [] .unbalanced
                | .noBrace _ => .err [] .missingArg
                | .ok after r2 =>
                  match expand fs f tbl after with
                  | .fuelOut _ => .fuelOut []
                  | .err _ e => .err [] e
                  | .ok s t1 =>
                    match expand fs f t1 before with
                    | .fuelOut _ => .fuelOut []
                    | .err _ e => .err [] e
                    | .ok b t2 =>
                      match expand fs f t2 (b ++ s) with
                      | .ok o1 t3 => (expand fs f t3 r2).withOut o1
                      | r => r
            else
              match tblLookup tbl name with
              | none => .err [] (.notDefined name)
              | some val =>
                match readArg p' with
                | .unbal => .err [] .unbalanced
                | .noBrace _ => .err [] .missingArg
                | .ok arg r1 =>
                  match expand fs f tbl (substBody val arg) with
                  | .ok o1 t1 => (expand fs f t1 r1).withOut o1
                  | r => r
          else (expand fs f tbl p').withOut ('\\' :: name)
        else (expand fs f tbl rest2).withOut ['\\', c2]
    else (expand fs f tbl rest).withOut [c]

/-- Standard output of a run of submission: parse_and_expand (lines
731-745) accumulates everything in the global buffer and prints it with
fputs only when no error occurred, and raise_error exits before anything
is printed, so an aborted run writes nothing to stdout. -/
def stdoutOf : ERes → Text
  | .ok o _ => o
  | .err _ _ => []
  | .fuelOut _ => []

/-- Diagnostics printed to the error stream by a completed run of
submission: raise_error (lines 72-81) prints its message exactly once and
exits immediately. -/
def stderrOf : ERes → List Err
  | .err _ e => [e]
  | _ => []

end S1

/-- One mutation of the macro table, as performed during an expansion run:
a define (from the def builtin) or an undefine (from the undef builtin). -/
inductive TOp where
  | defOp (n v : Text)
  | undefOp (n : Text)

/-- Applies one table operation using submission's define_macro and
undef_macro; none means the operation raised an error and the run
aborted. -/
def S1.applyOp (t : MacroTable) : TOp → Option MacroTable
  | .defOp n v => S1.tblDefine t n v
  | .undefOp n => tblRemove t n

/-- Runs a sequence of table operations using submission's table code,
aborting at the first error. -/
def S1.runOps : List TOp → MacroTable → Option MacroTable
  | [], t => some t
  | op :: ops, t =>
    match S1.applyOp t op with
    | none => none
    | some t2 => S1.runOps ops t2

/-- Applies one table operation using submission2's define_macro and
undef_macro. -/
def S2.applyOp (t : MacroTable) : TOp → Option MacroTable
  | .defOp n v => S2.tblDefine t n v
  | .undefOp n => tblRemove t n

/-- Runs a sequence of table operations using submission2's table code. -/
def S2.runOps : List TOp → MacroTable → Option MacroTable
  | [], t => some t
  | op :: ops, t =>
    match S2.applyOp t op with
    | none => none
    | some t2 => S2.runOps ops t2

/-- The names bound by the entries of a macro table. -/
def namesOf (t : MacroTable) : List Text := t.map Prod.fst

theorem expand_nil_s1 (fs : Text → Option Text) (tbl : MacroTable) :
    ∀ f, S1.expand fs f tbl [] = .ok [] tbl := by
  intro f
  cases f <;> rfl

theorem expand_nil_s2 (fs : Text → Option Text) (tbl : MacroTable) :
    ∀ f, S2.expand fs f tbl [] = .ok [] tbl := by
  intro f
  cases f <;> rfl

theorem esc_not_alnum (c : Char) (h : isEscChar c = true) : c_isalnum c = false := by
  simp only [isEscChar, Bool.or_eq_true, decide_eq_true_eq] at h
  rcases h with ((((rfl | rfl) | rfl) | rfl) | rfl) <;> decide

theorem alnum_not_esc (c : Char) (h : c_isalnum c = true) : isEscChar c = false := by
  rcases he : isEscChar c with _ | _
  · rfl
  · rw [esc_not_alnum c he] at h
    exact Bool.noConfusion h

theorem space_not_alnum (c : Char) (h : c_isspace c = true) : c_isalnum c = false := by
  simp only [c_isspace, Bool.or_eq_true, decide_eq_true_eq] at h
  rcases h with (((((rfl | rfl) | rfl) | rfl) | rfl) | rfl) <;> decide

theorem readMacroName_stop (s : Text)
    (h : ∀ c cs, s = c :: cs → c_isalnum c = false) :
    readMacroName s = ([], s) := by
  cases s with
  | nil => rfl
  | cons c cs => simp [readMacroName, h c cs rfl]

theorem readMacroName_append (name p : Text) (h1 : name.all c_isalnum = true)
    (h2 : ∀ c cs, p = c :: cs → c_isalnum c = false) :
    readMacroName (name ++ p) = (name, p) := by
  induction name with
  | nil => simpa using readMacroName_stop p h2
  | cons a as ih =>
    simp only [List.all_cons, Bool.and_eq_true] at h1
    simp [readMacroName, h1.1, ih h1.2]

theorem readArg_ok_stop_s2 (s a r : Text) (h : S2.readArg s = .ok a r) :
    ∀ c cs, s = c :: cs → c_isalnum c = false := by
  intro c cs hs
  subst hs
  by_cases hsp : c_isspace c = true
  · exact space_not_alnum c hsp
  · by_cases hc : c = '{'
    · subst hc; decide
    · simp [S2.readArg, List.dropWhile_cons, hsp, hc] at h

theorem readArg_ok_stop_s1 (s a r : Text) (h : S1.readArg s = .ok a r) :
    ∀ c cs, s = c :: cs → c_isalnum c = false := by
  intro c cs hs
  subst hs
  by_cases hsp : c_isspace c = true
  · exact space_not_alnum c hsp
  · by_cases hc : c = '{'
    · subst hc; decide
    · simp [S1.readArg, List.dropWhile_cons, hsp, hc] at h

theorem readArg_ok_brace_s1 (s a r : Text) (h : S1.readArg s = .ok a r) :
    (s.dropWhile c_isspace).head? = some '{' := by
  by_cases hb : (s.dropWhile c_isspace).head? = some '{'
  · exact hb
  · simp [S1.readArg, hb] at h

theorem readArg_dropWhile_s1 (s : Text)
    (h : (s.dropWhile c_isspace).head? = some '{') :
    S1.readArg (s.dropWhile c_isspace) = S1.readArg s := by
  have hfix : (s.dropWhile c_isspace).dropWhile c_isspace = s.dropWhile c_isspace := by
    rcases hp : s.dropWhile c_isspace with _ | ⟨c, tl⟩
    · rfl
    · rw [hp] at h
      simp only [List.head?] at h
      have hc : c = '{' := by injection h
      subst hc
      have hsp : c_isspace '{' = false := by decide
      simp [List.dropWhile_cons, hsp]
  simp only [S1.readArg, hfix]

theorem not_mem_of_any_eq_false (t : MacroTable) (n : Text)
    (h : (t.any fun m => m.1 = n) = false) : n ∉ namesOf t := by
  intro hm
  simp only [namesOf, List.mem_map] at hm
  obtain ⟨e, he, hfst⟩ := hm
  simp only [List.any_eq_false, decide_eq_true_eq] at h
  exact h e he hfst

theorem any_fst_eq_lookup (t : MacroTable) (n : Text) :
    (t.any fun m => m.1 = n) = (tblLookup t n).isSome := by
  induction t with
  | nil => rfl
  | cons e rest ih =>
    by_cases he : e.1 = n
    · simp [tblLookup, he]
    · simp [tblLookup, he, ih]

theorem tblRemove_sublist (t : MacroTable) (n : Text) :
    ∀ t2, tblRemove t n = some t2 → t2.Sublist t := by
  induction t with
  | nil => intro t2 h; exact absurd h (by simp [tblRemove])
  | cons e rest ih =>
    intro t2 h
    by_cases he : e.1 = n
    · simp only [tblRemove, he, if_pos, if_true] at h
      have h2 : t2 = rest := by injection h with h2; exact h2.symm
      rw [h2]
      exact (List.Sublist.refl rest).cons e
    · simp only [tblRemove, he, if_neg, ite_false, Option.map_eq_some'] at h
      obtain ⟨t3, h3, rfl⟩ := h
      exact (ih t3 h3).cons₂ e

theorem tblDefine_some_s2 (t : MacroTable) (n v : Text) (t2 : MacroTable)
    (h : S2.tblDefine t n v = some t2) :
    t2 = (n, v) :: t ∧ (t.any fun m => m.1 = n) = false := by
  by_cases ha : (t.any fun m => m.1 = n) = true
  · simp [S2.tblDefine, ha] at h
  · rw [Bool.not_eq_true] at ha
    simp only [S2.tblDefine, ha, Bool.false_eq_true, if_false, Option.some.injEq] at h
    exact ⟨h.symm, ha⟩

theorem runOps_nodup_s2 :
    ∀ (ops : List TOp) (t t2 : MacroTable), S2.runOps ops t = some t2 →
      (namesOf t).Nodup → (namesOf t2).Nodup := by
  intro ops
  induction ops with
  | nil =>
    intro t t2 h h1
    simp only [S2.runOps, Option.some.injEq] at h
    rw [← h]
    exact h1
  | cons op ops ih =>
    intro t t2 h h1
    rcases hop : S2.applyOp t op with _ | t3
    · rw [S2.runOps, hop] at h
      exact absurd h (by simp)
    · rw [S2.runOps, hop] at h
      refine ih t3 t2 h ?_
      cases op with
      | defOp n v =>
        obtain ⟨rfl, hany⟩ := tblDefine_some_s2 t n v t3 hop
        exact List.Nodup.cons (not_mem_of_any_eq_false t n hany) h1
      | undefOp n =>
        have hsub := tblRemove_sublist t n t3 hop
        exact h1.sublist (hsub.map Prod.fst)

theorem tblDefine_some_s1 (t : MacroTable) (n v : Text) (t2 : MacroTable)
    (h : S1.tblDefine t n v = some t2) :
    t2 = t ∨ (t2 = (n, v) :: t ∧ (t.any fun m => m.1 = n) = false ∧ is_builtin n = false) := by
  by_cases hb : is_builtin n = true
  · left
    simp only [S1.tblDefine, hb, if_true, Option.some.injEq] at h
    exact h.symm
  · rw [Bool.not_eq_true] at hb
    right
    by_cases ha : (t.any fun m => m.1 = n) = true
    · simp [S1.tblDefine, hb, ha] at h
    · rw [Bool.not_eq_true] at ha
      simp only [S1.tblDefine, hb, Bool.false_eq_true, if_false, ha,
        Option.some.injEq] at h
      exact ⟨h.symm, ha, hb⟩

theorem runOps_inv_s1 :
    ∀ (ops : List TOp) (t t2 : MacroTable), S1.runOps ops t = some t2 →
      (namesOf t).Nodup → (∀ n ∈ namesOf t, is_builtin n = false) →
      (namesOf t2).Nodup ∧ ∀ n ∈ namesOf t2, is_builtin n = false := by
  intro ops
  induction ops with
  | nil =>
    intro t t2 h h1 h2
    simp only [S1.runOps, Option.some.injEq] at h
    rw [← h]
    exact ⟨h1, h2⟩
  | cons op ops ih =>
    intro t t2 h h1 h2
    rcases hop : S1.applyOp t op with _ | t3
    · rw [S1.runOps, hop] at h
      exact absurd h (by simp)
    · rw [S1.runOps, hop] at h
      cases op with
      | defOp n v =>
        rcases tblDefine_some_s1 t n v t3 hop with h3 | ⟨h3, hany, hnb⟩
        · rw [h3] at h
          exact ih t t2 h h1 h2
        · rw [h3] at h
          have hnames : namesOf ((n, v) :: t) = n :: namesOf t := rfl
          refine ih _ t2 h ?_ ?_
          · rw [hnames]
            exact List.Nodup.cons (not_mem_of_any_eq_false t n hany) h1
          · intro m hm
            rw [hnames] at hm
            rcases List.mem_cons.mp hm with rfl | hm2
            · exact hnb
            · exact h2 m hm2
      | undefOp n =>
        have hsub := (tblRemove_sublist t n t3 hop).map Prod.fst
        refine ih t3 t2 h (h1.sublist hsub) ?_
        intro m hm
        exact h2 m (hsub.subset hm)

theorem c3loop_s2 (fs : Text → Option Text) :
    ∀ f, S2.expand fs f [(['A'], ['\\', 'A', '{', '}'])] ['\\', 'A', '{', '}'] = .fuelOut [] := by
  intro f
  induction f with
  | zero => rfl
  | succ f ih =>
    simp [S2.expand, readMacroName, S2.readArg, S2.argScan, substBody, tblLookup,
      strDef, strUndef, strIf, strIfdef, strInclude, strExpandafter,
      c_isalnum, c_isspace, isEscChar, List.dropWhile, ih]

theorem c3loop_s1 (fs : Text → Option Text) :
    ∀ f, S1.expand fs f [(['A'], ['\\', 'A', '{', '}'])] ['\\', 'A', '{', '}'] = .fuelOut [] := by
  intro f
  induction f with
  | zero => rfl
  | succ f ih =>
    simp [S1.expand, readMacroName, S1.readArg, S1.argScan, substBody, tblLookup,
      strDef, strUndef, strIf, strIfdef, strInclude, strExpandafter,
      c_isalnum, c_isspace, isEscChar, List.dropWhile, ih]

/-- The self-referential program: define A whose template invokes A, then
invoke A.  Written out it is the (comment-free) source text
backslash def brace A brace brace backslash A braces brace, followed by
an invocation of A with an empty argument. -/
def c3in : Text :=
  ['\\'] ++ strDef ++ ['{', 'A', '}', '{', '\\', 'A', '{', '}', '}'] ++ ['\\', 'A', '{', '}']

/-- Claim C3: for the self-referential input c3in, no amount of fuel makes
either implementation terminate normally or report an error: both are
still recursing at every finite bound, so the C programs recurse without
bound instead of reporting a ResourceExhausted diagnostic. -/
theorem C3_unbounded_recursion :
    ∀ (fs : Text → Option Text) (f : Nat),
      S1.expand fs f [] c3in = .fuelOut [] ∧ S2.expand fs f [] c3in = .fuelOut [] := by
  intro fs f
  cases f with
  | zero => exact ⟨rfl, rfl⟩
  | succ f =>
    constructor
    · simp [c3in, S1.expand, readMacroName, S1.readArg, S1.argScan, S1.tblDefine,
        is_builtin, substBody, tblLookup, strDef, strUndef, strIf, strIfdef,
        strInclude, strExpandafter, c_isalnum, c_isspace, isEscChar,
        List.dropWhile, c3loop_s1 fs f]
    · simp [c3in, S2.expand, readMacroName, S2.readArg, S2.argScan, S2.tblDefine,
        substBody, tblLookup, strDef, strUndef, strIf, strIfdef,
        strInclude, strExpandafter, c_isalnum, c_isspace, isEscChar,
        List.dropWhile, c3loop_s2 fs f]

/-- Claim C1 (amended): in submission2, an invocation of expandafter with
arguments BEFORE and AFTER first fully expands AFTER in isolation against
the live table into a private capture buffer yielding S, then expands the
concatenation of the raw BEFORE with S into the current sink, and then
expands the continuation; the second conjunct is the golden example where
AFTER defines the macro that the raw BEFORE then invokes.  In submission,
BEFORE is itself fully expanded before the concatenation (see
C1_before_also_expanded). -/
theorem C1_expandafter_order :
    (∀ (fs : Text → Option Text) (f : Nat) (tbl : MacroTable)
        (rest0 before r1 after r2 : Text),
      S2.readArg rest0 = .ok before r1 →
      S2.readArg r1 = .ok after r2 →
      S2.expand fs (f + 1) tbl ('\\' :: (strExpandafter ++ rest0))
        = match S2.expand fs f tbl after with
          | .fuelOut _ => .fuelOut []
          | .err _ e => .err [] e
          | .ok s t1 =>
            match S2.expand fs f t1 (before ++ s) with
            | .ok o1 t2 => (S2.expand fs f t2 r2).withOut o1
            | r => r) ∧
    S2.expand emptyFs 20 [] (['\\'] ++ strExpandafter ++
        ['{', '\\', 'A', '{', 'q', '}', '}', '{', '\\'] ++ strDef
        ++ ['{', 'A', '}', '{', '<', '#', '>', '}', '}'])
      = .ok ['<', 'q', '>'] [(['A'], ['<', '#', '>'])] := by
  refine ⟨?_, by decide⟩
  intro fs f tbl rest0 before r1 after r2 h1 h2
  have hstop : ∀ c cs, rest0 = c :: cs → c_isalnum c = false :=
    readArg_ok_stop_s2 rest0 before r1 h1
  have hrmn : readMacroName (strExpandafter ++ rest0) = (strExpandafter, rest0) :=
    readMacroName_append strExpandafter rest0 (by decide) hstop
  simp only [strExpandafter, List.cons_append, List.nil_append] at hrmn ⊢
  simp [S2.expand, isEscChar, c_isalnum, strDef, strUndef, strIf, strIfdef, strInclude,
    strExpandafter, hrmn, h1, h2]

/-- Claim C1, witness for the general conjunct at BEFORE q, AFTER w,
continuation z. -/
theorem C1_expandafter_order_witness :
    S2.expand emptyFs (5 + 1) [] ('\\' :: (strExpandafter ++ ['{', 'q', '}', '{', 'w', '}', 'z']))
      = match S2.expand emptyFs 5 [] ['w'] with
        | .fuelOut _ => .fuelOut []
        | .err _ e => .err [] e
        | .ok s t1 =>
          match S2.expand emptyFs 5 t1 (['q'] ++ s) with
          | .ok o1 t2 => (S2.expand emptyFs 5 t2 ['z']).withOut o1
          | r => r :=
  C1_expandafter_order.1 emptyFs 5 [] ['{', 'q', '}', '{', 'w', '}', 'z'] ['q']
    ['{', 'w', '}', 'z'] ['w'] ['z'] (by decide) (by decide)

/-- Claim C1, counterexample to the claim as stated: on the input
expandafter of BEFORE four-backslashes and AFTER x, submission produces
backslash x, but the claim prescribes expanding the raw BEFORE
concatenated with S; since AFTER expands in isolation to x (third
conjunct) and expanding the raw concatenation with the same engine gives
backslash backslash x (second conjunct), submission does not expand the
raw BEFORE text: it fully expands BEFORE first. -/
theorem C1_before_also_expanded :
    S1.expand emptyFs 10 []
      (['\\'] ++ strExpandafter ++ ['{', '\\', '\\', '\\', '\\', '}', '{', 'x', '}'])
      = .ok ['\\', 'x'] [] ∧
    S1.expand emptyFs 10 [] (['\\', '\\', '\\', '\\'] ++ ['x']) = .ok ['\\', '\\', 'x'] [] ∧
    S1.expand emptyFs 10 [] ['x'] = .ok ['x'] [] ∧
    (['\\', 'x'] : Text) ≠ ['\\', '\\', 'x'] :=
  ⟨by decide, by decide, by decide, by decide⟩

/-- Claim C2 (amended): in submission, whenever an expansion run fails
with an error, nothing at all is written to standard output and exactly
one diagnostic reaches the error stream, because the output is buffered
globally and printed only on success while raise_error prints once and
exits.  In submission2 the sink streams straight to stdout, so output
emitted before the error remains visible (see C2_partial_output). -/
theorem C2_all_or_nothing :
    ∀ (fs : Text → Option Text) (fuel : Nat) (input out : Text) (e : Err),
      S1.expand fs fuel [] input = .err out e →
        S1.stdoutOf (S1.expand fs fuel [] input) = [] ∧
        S1.stderrOf (S1.expand fs fuel [] input) = [e] := by
  intro fs fuel input out e h
  rw [h]
  exact ⟨rfl, rfl⟩

/-- Claim C2, witness at the failing input undef of X. -/
theorem C2_all_or_nothing_witness :
    S1.stdoutOf (S1.expand emptyFs 10 [] (['\\'] ++ strUndef ++ ['{', 'X', '}'])) = [] ∧
    S1.stderrOf (S1.expand emptyFs 10 [] (['\\'] ++ strUndef ++ ['{', 'X', '}'])) = [.undefAbsent ['X']] :=
  C2_all_or_nothing emptyFs 10 (['\\'] ++ strUndef ++ ['{', 'X', '}']) []
    (.undefAbsent ['X']) (by decide)

/-- Claim C2, counterexample to the claim as stated: in submission2 the
input a followed by undef of X fails, yet the already-streamed character
a is on standard output, so expansion is not all-or-nothing there. -/
theorem C2_partial_output :
    S2.expand emptyFs 10 [] ['a', '\\', 'u', 'n', 'd', 'e', 'f', '{', 'X', '}']
      = .err ['a'] (.undefAbsent ['X']) ∧
    S2.stdoutOf (S2.expand emptyFs 10 [] ['a', '\\', 'u', 'n', 'd', 'e', 'f', '{', 'X', '}']) = ['a'] ∧
    (['a'] : Text) ≠ [] :=
  ⟨by decide, by decide, by decide⟩

/-- Claim C4 (amended): in submission, a backslash followed by a maximal
alphanumeric run that is not followed, after skipping whitespace, by an
opening brace is emitted literally as backslash name, and scanning
resumes after the skipped whitespace, so intervening whitespace is
consumed rather than processed normally.  In submission2 there is no
literal fallback at all: the same input is an error (second conjunct). -/
theorem C4_literal_fallback :
    (∀ (fs : Text → Option Text) (f : Nat) (tbl : MacroTable) (name p : Text),
      name ≠ [] → name.all c_isalnum = true →
      (∀ c cs, p = c :: cs → c_isalnum c = false) →
      (p.dropWhile c_isspace).head? ≠ some '{' →
      S1.expand fs (f + 1) tbl ('\\' :: (name ++ p))
        = (S1.expand fs f tbl (p.dropWhile c_isspace)).withOut ('\\' :: name)) ∧
    S2.expand emptyFs 5 [] ['\\', 'A', ' ', 'x'] = .err [] (.notDefined ['A']) := by
  refine ⟨?_, by decide⟩
  intro fs f tbl name p hne hall hstop hbrace
  cases name with
  | nil => exact absurd rfl hne
  | cons a as =>
    have hrmn : readMacroName ((a :: as) ++ p) = (a :: as, p) :=
      readMacroName_append (a :: as) p hall hstop
    have ha : c_isalnum a = true := by
      simp only [List.all_cons, Bool.and_eq_true] at hall
      exact hall.1
    have hesc : isEscChar a = false := alnum_not_esc a ha
    simp only [List.cons_append] at hrmn ⊢
    simp [S1.expand, hesc, ha, hrmn, hbrace]

/-- Claim C4, witness for the fallback conjunct at name A and trailing
text space x. -/
theorem C4_literal_fallback_witness :
    S1.expand emptyFs (4 + 1) [] ('\\' :: (['A'] ++ [' ', 'x']))
      = (S1.expand emptyFs 4 [] ([' ', 'x'].dropWhile c_isspace)).withOut ('\\' :: ['A']) :=
  C4_literal_fallback.1 emptyFs 4 [] ['A'] [' ', 'x'] (by decide) (by decide)
    (by intro c cs h; cases h; decide) (by decide)

/-- Claim C4, counterexample to the claim as stated: on backslash A space
x, submission emits backslash A and then x, dropping the space, whereas
the claim requires every following character including the whitespace to
be processed normally, which would give backslash A space x. -/
theorem C4_whitespace_consumed :
    S1.expand emptyFs 5 [] ['\\', 'A', ' ', 'x'] = .ok ['\\', 'A', 'x'] [] ∧
    (['\\', 'A', 'x'] : Text) ≠ ['\\', 'A', ' ', 'x'] :=
  ⟨by decide, by decide⟩

/-- Claim C5 (amended): every macro table reachable from the empty table
by a sequence of define and undefine operations has at most one entry per
name in both implementations; in submission the six builtin names are
never stored because define_macro ignores them, while in submission2 a
builtin name can be stored (see C5_builtin_stored). -/
theorem C5_invariant :
    (∀ (ops : List TOp) (t : MacroTable), S1.runOps ops [] = some t →
      (namesOf t).Nodup ∧ ∀ n ∈ namesOf t, is_builtin n = false) ∧
    (∀ (ops : List TOp) (t : MacroTable), S2.runOps ops [] = some t → (namesOf t).Nodup) := by
  constructor
  · intro ops t h
    exact runOps_inv_s1 ops [] t h (by simp [namesOf]) (by simp [namesOf])
  · intro ops t h
    exact runOps_nodup_s2 ops [] t h (by simp [namesOf])

/-- Claim C5, witness at the operation sequence define A, undefine A,
define A again, define B. -/
theorem C5_invariant_witness :
    (namesOf [(['B'], []), (['A'], ['2'])]).Nodup ∧
    ∀ n ∈ namesOf [(['B'], []), (['A'], ['2'])], is_builtin n = false :=
  C5_invariant.1 [TOp.defOp ['A'] ['1'], TOp.undefOp ['A'], TOp.defOp ['A'] ['2'],
    TOp.defOp ['B'] []] [(['B'], []), (['A'], ['2'])] (by decide)

/-- Claim C5, counterexample to the claim as stated: in submission2,
defining the name def stores an entry whose name is the builtin def, both
through the table operation directly and through an actual expansion of
def of def, so a builtin name is stored in a reachable table state. -/
theorem C5_builtin_stored :
    S2.runOps [TOp.defOp strDef ['x']] [] = some [(strDef, ['x'])] ∧
    S2.expand emptyFs 10 [] (['\\'] ++ strDef ++ ['{', 'd', 'e', 'f', '}', '{', 'x', '}'])
      = .ok [] [(strDef, ['x'])] ∧
    strDef ∈ namesOf [(strDef, ['x'])] ∧
    is_builtin strDef = true :=
  ⟨by decide, by decide, by decide, by decide⟩

/-- The duplicate-definition program: define A as 1 and then define A as 2. -/
def dupABin : Text :=
  ['\\'] ++ strDef ++ ['{', 'A', '}', '{', '1', '}', '\\'] ++ strDef ++ ['{', 'A', '}', '{', '2', '}']

/-- Claim C6 (amended): define fails with the duplicate error exactly when
the name is already bound and otherwise adds the binding, except that in
submission a builtin name is silently ignored (first conjunct is
restricted to non-builtin names; submission2 has no such exception); in
both implementations expanding def A 1 then def A 2 fails with the
duplicate-macro error. -/
theorem C6_define_duplicate :
    (∀ (t : MacroTable) (n v : Text), is_builtin n = false →
      S1.tblDefine t n v = if (tblLookup t n).isSome then none else some ((n, v) :: t)) ∧
    (∀ (t : MacroTable) (n v : Text),
      S2.tblDefine t n v = if (tblLookup t n).isSome then none else some ((n, v) :: t)) ∧
    S1.expand emptyFs 10 [] dupABin = .err [] (.dup ['A']) ∧
    S2.expand emptyFs 10 [] dupABin = .err [] (.dup ['A']) := by
  refine ⟨?_, ?_, by decide, by decide⟩
  · intro t n v hb
    simp [S1.tblDefine, hb, any_fst_eq_lookup]
  · intro t n v
    simp [S2.tblDefine, any_fst_eq_lookup]

/-- Claim C6, witness for the first conjunct at the unbound non-builtin
name A. -/
theorem C6_define_duplicate_witness :
    S1.tblDefine [] ['A'] ['1'] = if (tblLookup [] ['A']).isSome then none else some [(['A'], ['1'])] :=
  C6_define_duplicate.1 [] ['A'] ['1'] (by decide)

/-- Claim C6, counterexample to the claim as stated: in submission,
defining the unbound builtin name def adds no binding at all (the table
stays empty), and even repeating the definition does not fail with the
duplicate error, contradicting that define otherwise adds the binding. -/
theorem C6_builtin_ignored :
    S1.tblDefine [] strDef ['x'] = some [] ∧
    tblLookup [] strDef = none ∧
    S1.expand emptyFs 20 []
      (['\\'] ++ strDef ++ ['{', 'd', 'e', 'f', '}', '{', 'x', '}', '\\'] ++ strDef
        ++ ['{', 'd', 'e', 'f', '}', '{', 'y', '}'])
      = .ok [] [] :=
  ⟨by decide, by decide, by decide⟩

/-- Claim C7: an invocation of the if builtin reads its COND argument raw,
expands the ELSE branch exactly when COND is empty and the THEN branch
otherwise, and then expands the continuation; the general conjunct covers
submission, and the closed conjuncts check both required examples on both
implementations: if of empty, T, E gives E and if of x, T, E gives T. -/
theorem C7_if_raw_cond :
    (∀ (fs : Text → Option Text) (f : Nat) (tbl : MacroTable)
        (rest0 cond r1 thn r2 els r3 : Text),
      S1.readArg rest0 = .ok cond r1 →
      S1.readArg r1 = .ok thn r2 →
      S1.readArg r2 = .ok els r3 →
      S1.expand fs (f + 1) tbl ('\\' :: (strIf ++ rest0))
        = match S1.expand fs f tbl (if cond = [] then els else thn) with
          | .ok o1 t1 => (S1.expand fs f t1 r3).withOut o1
          | r => r) ∧
    S1.expand emptyFs 10 [] (['\\'] ++ strIf ++ ['{', '}', '{', 'T', '}', '{', 'E', '}']) = .ok ['E'] [] ∧
    S1.expand emptyFs 10 [] (['\\'] ++ strIf ++ ['{', 'x', '}', '{', 'T', '}', '{', 'E', '}']) = .ok ['T'] [] ∧
    S2.expand emptyFs 10 [] (['\\'] ++ strIf ++ ['{', '}', '{', 'T', '}', '{', 'E', '}']) = .ok ['E'] [] ∧
    S2.expand emptyFs 10 [] (['\\'] ++ strIf ++ ['{', 'x', '}', '{', 'T', '}', '{', 'E', '}']) = .ok ['T'] [] := by
  refine ⟨?_, by decide, by decide, by decide, by decide⟩
  intro fs f tbl rest0 cond r1 thn r2 els r3 h1 h2 h3
  have hstop : ∀ c cs, rest0 = c :: cs → c_isalnum c = false :=
    readArg_ok_stop_s1 rest0 cond r1 h1
  have hrmn : readMacroName (strIf ++ rest0) = (strIf, rest0) :=
    readMacroName_append strIf rest0 (by decide) hstop
  have hbrace : (rest0.dropWhile c_isspace).head? = some '{' :=
    readArg_ok_brace_s1 rest0 cond r1 h1
  have hdw : S1.readArg (rest0.dropWhile c_isspace) = S1.readArg rest0 :=
    readArg_dropWhile_s1 rest0 hbrace
  simp only [strIf, List.cons_append, List.nil_append] at hrmn ⊢
  simp [S1.expand, isEscChar, c_isalnum, strDef, strUndef, strIf, strIfdef, strInclude,
    strExpandafter, hrmn, hbrace, hdw, h1, h2, h3]

/-- Claim C7, witness for the general conjunct at COND c, THEN T, ELSE E
and empty continuation. -/
theorem C7_if_raw_cond_witness :
    S1.expand emptyFs (5 + 1) [] ('\\' :: (strIf ++ ['{', 'c', '}', '{', 'T', '}', '{', 'E', '}']))
      = match S1.expand emptyFs 5 [] (if (['c'] : Text) = [] then ['E'] else ['T']) with
        | .ok o1 t1 => (S1.expand emptyFs 5 t1 []).withOut o1
        | r => r :=
  C7_if_raw_cond.1 emptyFs 5 [] ['{', 'c', '}', '{', 'T', '}', '{', 'E', '}'] ['c']
    ['{', 'T', '}', '{', 'E', '}'] ['T'] ['{', 'E', '}'] ['E'] [] (by decide) (by decide) (by decide)

/-- Claim C8: for each character c in the escape alphabet backslash,
braces, hash, percent, expanding the two-character input backslash c
emits exactly c and nothing else, in both implementations, at any fuel. -/
theorem C8_escape_alphabet :
    ∀ (fs : Text → Option Text) (f : Nat) (tbl : MacroTable) (c : Char),
      isEscChar c = true →
        S1.expand fs (f + 1) tbl ['\\', c] = .ok [c] tbl ∧
        S2.expand fs (f + 1) tbl ['\\', c] = .ok [c] tbl := by
  intro fs f tbl c h
  constructor
  · simp [S1.expand, h, expand_nil_s1, ERes.withOut]
  · simp [S2.expand, h, expand_nil_s2, ERes.withOut]

/-- Claim C8, witness at the escape character hash. -/
theorem C8_escape_alphabet_witness :
    S1.expand emptyFs (0 + 1) [] ['\\', '#'] = .ok ['#'] [] ∧
    S2.expand emptyFs (0 + 1) [] ['\\', '#'] = .ok ['#'] [] :=
  C8_escape_alphabet emptyFs 0 [] '#' (by decide)

/-- Claim C9: when the argument scanner exhausts its input before the
brace depth returns to zero it yields no captured argument (first two
conjuncts, for both implementations), readArg turns that outcome into the
unbalanced-braces error (third conjunct), and the whole-program example
def of A with an unclosed value argument fails with unbalanced braces in
both implementations. -/
theorem C9_unbalanced_braces :
    (∀ (depth : Nat) (esc : Bool) (acc : Text), S2.argScan [] depth esc acc = none) ∧
    (∀ (depth cnt : Nat) (acc : Text), S1.argScan [] depth cnt acc = none) ∧
    (∀ s : Text, (s.dropWhile c_isspace).head? = some '{' →
      S2.argScan (s.dropWhile c_isspace).tail 1 false [] = none →
      S2.readArg s = .unbal) ∧
    S2.expand emptyFs 10 [] (['\\'] ++ strDef ++ ['{', 'A', '}', '{', 'x']) = .err [] .unbalanced ∧
    S1.expand emptyFs 10 [] (['\\'] ++ strDef ++ ['{', 'A', '}', '{', 'x']) = .err [] .unbalanced := by
  refine ⟨fun _ _ _ => rfl, fun _ _ _ => rfl, ?_, by decide, by decide⟩
  intro s h1 h2
  simp [S2.readArg, h1, h2]

/-- Claim C9, witness for the readArg conjunct at the unclosed argument
open-brace x. -/
theorem C9_unbalanced_braces_witness : S2.readArg ['{', 'x'] = .unbal :=
  C9_unbalanced_braces.2.2.1 ['{', 'x'] (by decide) (by decide)

theorem argScan_parity_s1 :
    ∀ (s : Text) (depth cnt : Nat) (acc : Text),
      S1.argScan s depth cnt acc = S1.argScan s depth (cnt % 2) acc := by
  intro s
  induction s with
  | nil => intro depth cnt acc; rfl
  | cons c rest ih =>
    intro depth cnt acc
    by_cases hc : c = '\\'
    · subst hc
      have hmod : (cnt + 1) % 2 = (cnt % 2 + 1) % 2 := by omega
      simp only [S1.argScan, if_pos]
      rw [ih depth (cnt + 1), ih depth (cnt % 2 + 1), hmod]
    · have h0 : cnt % 2 % 2 = cnt % 2 := by omega
      simp only [S1.argScan, hc, ite_false, h0]

/-- Claim C10: inside a captured argument a backslash escape is copied
through with the backslash retained and the escaped character never
alters the brace depth, for any character, brace or not (first conjunct
for submission2's toggle-flag scanner in the unescaped state, third
conjunct for submission's parity-count scanner at every even count - the
unescaped states of that scanner); the closing brace that returns the
depth to zero is consumed but not stored (second conjunct for
submission2, fourth for submission at every even count); and a concrete
capture with an escaped closing brace gives the same raw argument in both
implementations. -/
theorem C10_argument_capture :
    (∀ (c : Char) (rest : Text) (depth : Nat) (acc : Text),
      S2.argScan ('\\' :: c :: rest) depth false acc
        = S2.argScan rest depth false (acc ++ ['\\', c])) ∧
    (∀ (rest acc : Text), S2.argScan ('}' :: rest) 1 false acc = some (acc, rest)) ∧
    (∀ (c : Char) (rest : Text) (depth cnt : Nat) (acc : Text), cnt % 2 = 0 →
      S1.argScan ('\\' :: c :: rest) depth cnt acc
        = S1.argScan rest depth 0 (acc ++ ['\\', c])) ∧
    (∀ (rest acc : Text) (cnt : Nat), cnt % 2 = 0 →
      S1.argScan ('}' :: rest) 1 cnt acc = some (acc, rest)) ∧
    S2.readArg ['{', 'a', '\\', '}', 'b', '}', 'c'] = .ok ['a', '\\', '}', 'b'] ['c'] ∧
    S1.readArg ['{', 'a', '\\', '}', 'b', '}', 'c'] = .ok ['a', '\\', '}', 'b'] ['c'] := by
  refine ⟨?_, ?_, ?_, ?_, by decide, by decide⟩
  · intro c rest depth acc
    simp [S2.argScan, List.append_assoc]
  · intro rest acc
    simp [S2.argScan]
  · intro c rest depth cnt acc hcnt
    by_cases hc : c = '\\'
    · subst hc
      have hmod : (cnt + 1 + 1) % 2 = 0 := by omega
      simp only [S1.argScan, if_pos]
      rw [argScan_parity_s1 rest depth (cnt + 1 + 1), hmod, List.append_assoc]
      rfl
    · have hodd : ¬((cnt + 1) % 2 = 0) := by omega
      simp [S1.argScan, hc, hodd, List.append_assoc]
  · intro rest acc cnt hcnt
    simp [S1.argScan, hcnt]

/-- Claim C10, witness for the submission conjuncts: the escape equation
at the escaped character closing-brace with count zero, and the
closing-brace equation at the even count two. -/
theorem C10_argument_capture_witness :
    S1.argScan ('\\' :: '}' :: ['x', '}']) 1 0 []
      = S1.argScan ['x', '}'] 1 0 ([] ++ ['\\', '}']) ∧
    S1.argScan ('}' :: ['r']) 1 2 ['a'] = some (['a'], ['r']) :=
  ⟨C10_argument_capture.2.2.1 '}' ['x', '}'] 1 0 [] (by decide),
   C10_argument_capture.2.2.2.1 ['r'] ['a'] 2 (by decide)⟩
